import Mathlib

/-!
Verification of the downtorrent BitTorrent client against its specification.

The TypeScript sources are shallowly embedded: Node.js Buffers become lists
of byte values, classes become structures, methods become functions, and
code that can throw returns Except or Option.  Effects that leave the
process (sha1 hashing of the assembled piece, file writes, Math.random,
lodash shuffle) are passed in as explicit oracle arguments, as noted at
each definition.
-/

/-- A Node.js Buffer, modelled as a list of byte values. -/
abbrev Buf := List Nat

/-- Buffer.alloc: a zero filled buffer of the given size. -/
def bufAlloc (n : Nat) : Buf := List.replicate n 0

/-- Buffer.copy semantics: copy src into dst starting at dstOff, truncating at
the end of dst and leaving the rest of dst unchanged.  Also models
buffer.write for ASCII strings, which truncates the same way. -/
def copyInto (src dst : Buf) (dstOff : Nat) : Buf :=
  (List.range dst.length).map fun i =>
    if dstOff ≤ i ∧ i < dstOff + src.length then src.getD (i - dstOff) 0 else dst.getD i 0

/-- buffer.readUInt8(off); callers in the source only read in range. -/
def readUInt8 (buf : Buf) (off : Nat) : Nat := buf.getD off 0

/-- buffer.writeUInt8(value, offset): none models the Node range error thrown
when the value is not a byte or the offset is out of range. -/
def writeUInt8 (buf : Buf) (value offset : Nat) : Option Buf :=
  if value < 256 ∧ offset < buf.length then some (buf.set offset value) else none

/-- buffer.writeUInt32BE(value, offset): none models the Node range error. -/
def writeUInt32BE (buf : Buf) (value offset : Nat) : Option Buf :=
  if value < 4294967296 ∧ offset + 4 ≤ buf.length then
    some (copyInto [value / 16777216 % 256, value / 65536 % 256, value / 256 % 256, value % 256]
      buf offset)
  else none

/-- buffer.readUInt32BE(offset); callers in the source only read in range. -/
def readUInt32BE (buf : Buf) (offset : Nat) : Nat :=
  buf.getD offset 0 * 16777216 + buf.getD (offset + 1) 0 * 65536 +
    buf.getD (offset + 2) 0 * 256 + buf.getD (offset + 3) 0

/-! ## BitSet (src/util/bitSet.ts, the second chunk of tracker.ts) -/

/-- The BitSet class.  Fields mirror the source fields. -/
structure BitSet where
  _length : Nat
  _buf : Buf
deriving DecidableEq

/-- The BitSet constructor.  The source allocates
Buffer.alloc(Math.trunc(length + 7) / 8): for an integer length the argument
is the possibly fractional (length + 7) / 8, and Buffer.alloc truncates a
fractional size (typed array index conversion), so the byte count is the
Nat division (length + 7) / 8.  A supplied buffer is copied in, truncated
to the allocated size. -/
def BitSet.new (length : Nat) (init : Option Buf) : BitSet :=
  let base := bufAlloc ((length + 7) / 8)
  { _length := length
    _buf := match init with
      | none => base
      | some b => copyInto b base 0 }

def BitSet.length (bs : BitSet) : Nat := bs._length

def BitSet.buf (bs : BitSet) : Buf := bs._buf

/-- getBit from the source: ((buf.readUInt8(i / 8) << (i % 8)) & 0x80) == 0x80. -/
def BitSet.getBit (bs : BitSet) (i : Nat) : Bool :=
  ((readUInt8 bs._buf (i / 8)) <<< (i % 8)) &&& 0x80 == 0x80

/-- putBit from the source; the in range writeUInt8 is modelled by List.set. -/
def BitSet.putBit (bs : BitSet) (i : Nat) (value : Bool) : BitSet :=
  let div := i / 8
  let mod := i % 8
  if value then
    { bs with _buf := bs._buf.set div ((readUInt8 bs._buf div) ||| (0x80 >>> mod)) }
  else
    { bs with _buf := bs._buf.set div ((readUInt8 bs._buf div) &&& (0xff ^^^ (0x80 >>> mod))) }

/-- buf.fill(v), as used on the piece completion mask. -/
def BitSet.fill (bs : BitSet) (v : Nat) : BitSet :=
  { bs with _buf := List.replicate bs._buf.length v }

/-- Number of set bits among the first length bits of the mask. -/
def popcountFirst (bs : BitSet) : Nat :=
  ((List.range bs._length).filter (fun i => bs.getBit i)).length

/-! ## Piece (src/piece.ts, second chunk: the BitSet based version) -/

/-- Piece.subPieceLength, the fixed block size. -/
def subPieceLength : Nat := 16384

/-- The Piece class state.  _subPieceExpando is not a named source field: the
source tests and assigns this._subPieceCompleted[subPieceIndex] with bracket
indexing on the BitSet object, which at JS runtime reads and creates plain
own properties on that object, entirely separate from the bit buffer that
getBit and buf.fill operate on.  The expando field records the set of
sub piece indexes for which such a property has been set to true. -/
structure Piece where
  _pieceIndex : Nat
  _pieceLength : Nat
  _pieceCache : Option Buf
  _subPieceCompleted : BitSet
  _subPieceExpando : List Nat
  _subPieceCompletedCount : Nat
deriving DecidableEq

/-- The Piece constructor.  diskHashOk abstracts the startup probe: it is true
when readPieceFromFile did not throw and the sha1 of the bytes read equals the
expected piece hash; in that case the source fills the whole mask buffer with
0xff and sets the count to the mask length.  The cache is set back to null at
the end of the constructor in both cases. -/
def Piece.init (pieceIndex pieceLength : Nat) (diskHashOk : Bool) : Piece :=
  let bs := BitSet.new ((pieceLength + subPieceLength - 1) / subPieceLength) none
  if diskHashOk then
    { _pieceIndex := pieceIndex
      _pieceLength := pieceLength
      _pieceCache := none
      _subPieceCompleted := bs.fill 0xff
      _subPieceExpando := []
      _subPieceCompletedCount := bs._length }
  else
    { _pieceIndex := pieceIndex
      _pieceLength := pieceLength
      _pieceCache := none
      _subPieceCompleted := bs
      _subPieceExpando := []
      _subPieceCompletedCount := 0 }

def Piece.completed (p : Piece) : Bool :=
  p._subPieceCompletedCount == p._subPieceCompleted._length

def Piece.cached (p : Piece) : Bool := p._pieceCache.isSome

def Piece.clearCache (p : Piece) : Piece := { p with _pieceCache := none }

def Piece.subPieceTotalCount (p : Piece) : Nat := p._subPieceCompleted._length

/-- saveSubPiece from the source, one call.  hashOk abstracts the comparison of
the sha1 of the assembled cache with the expected piece hash; writeOk abstracts
writePieceToFile completing without throwing (the thrown error is caught in the
source, so a failed write only leaves written false).  The returned Bool is
true exactly when this call wrote the piece to disk.  The error value models
the received piece length overflow throw. -/
def Piece.saveSubPiece (p : Piece) (subPieceData : Buf) (subPieceOffset : Nat)
    (hashOk writeOk : Bool) : Except Unit (Piece × Bool) :=
  if subPieceOffset + subPieceData.length > p._pieceLength then .error () else
  let subPieceIndex := subPieceOffset / subPieceLength
  let cache := match p._pieceCache with
    | none => bufAlloc p._pieceLength
    | some c => c
  if p._subPieceExpando.contains subPieceIndex then
    .ok ({ p with _pieceCache := some cache }, false)
  else
    let expando := subPieceIndex :: p._subPieceExpando
    let count := p._subPieceCompletedCount + 1
    let cache2 := copyInto subPieceData cache subPieceOffset
    if count == p._subPieceCompleted._length then
      if hashOk && writeOk then
        .ok ({ p with
                _pieceCache := some cache2
                _subPieceExpando := expando
                _subPieceCompletedCount := count }, true)
      else
        .ok ({ p with
                _pieceCache := some cache2
                _subPieceExpando := expando
                _subPieceCompleted := p._subPieceCompleted.fill 0x00
                _subPieceCompletedCount := 0 }, false)
    else
      .ok ({ p with
              _pieceCache := some cache2
              _subPieceExpando := expando
              _subPieceCompletedCount := count }, false)

/-- getFirstIncompletedSubPiece from the source: the first sub piece index, in
increasing order, whose completion bit is clear and whose offset is at least
the hint; the error value models the unreachable throw at the end. -/
def Piece.getFirstIncompletedSubPiece (p : Piece) (subPieceOffsetHint : Nat) :
    Except Unit (Nat × Nat) :=
  match (List.range p._subPieceCompleted._length).find? (fun subPieceIndex =>
      !p._subPieceCompleted.getBit subPieceIndex &&
      decide (subPieceIndex * subPieceLength ≥ subPieceOffsetHint)) with
  | some subPieceIndex =>
      .ok (subPieceIndex * subPieceLength,
           min subPieceLength (p._pieceLength - subPieceIndex * subPieceLength))
  | none => .error ()

/-! ## findFileContainingOffset (src/piece.ts) -/

/-- An entry of state.torrent.files: cumulative byte offset and length.  The
file name is not consulted by the search and is omitted. -/
structure TFile where
  offset : Nat
  length : Nat
deriving DecidableEq

/-- The while loop of findFileContainingOffset.  l, r, m mirror the source
variables; m is none while the JS variable is still undefined.  In the branch
file.offset > offset the source sets r = m - 1, which for m = 0 makes r = -1
and ends the loop exactly as r = 0 does here, since l is then 0. -/
def findFileLoop (files : List TFile) (offset l r : Nat) (m : Option Nat) : Option Nat :=
  if l < r then
    let m2 := (l + r) / 2
    let file := files.getD m2 { offset := 0, length := 0 }
    if file.offset > offset then
      findFileLoop files offset l (m2 - 1) (some m2)
    else if file.offset + file.length ≤ offset then
      findFileLoop files offset (m2 + 1) r (some m2)
    else some m2
  else m
termination_by r - l
decreasing_by
  all_goals simp_wf
  all_goals omega

/-- findFileContainingOffset from the source. -/
def findFileContainingOffset (files : List TFile) (offset : Nat) : Option Nat :=
  findFileLoop files offset 0 files.length none

/-! ## The peer request pipeline cursor (src/peer.ts, downloadNextSubPiece) -/

/-- The piece used by List.getD when indexing out of range; in range callers
never see it. -/
def defaultPiece : Piece := Piece.init 0 0 false

/-- The cursor fields of a Peer; both start as null in the source. -/
structure PeerDL where
  _downloadingPieceIndex : Option Nat
  _downloadingSubPieceOffset : Option Nat
deriving DecidableEq

/-- Outcome of one downloadNextSubPiece call. -/
inductive DLOutcome
  | closed
  | threw
  | request (peer2 : PeerDL) (pieceIndex subPieceOffset subPieceLen : Nat)
deriving DecidableEq

/-- downloadNextSubPiece from the source.  pieces is the shared piece vector,
bitfield the bitfield received from the remote peer (the source dereferences
it unconditionally), rand the oracle for Math.trunc(Math.random() * n), taken
modulo the number of candidates.  closed models this._socket.end() when no
piece is downloadable; threw models the unreachable throw propagating out of
getFirstIncompletedSubPiece; request carries the updated cursor and the
REQUEST message fields written to the socket. -/
def downloadNextSubPiece (pieces : List Piece) (bitfield : BitSet) (peer : PeerDL)
    (rand : Nat) : DLOutcome :=
  let needReselect := match peer._downloadingPieceIndex with
    | none => true
    | some i => !(bitfield.getBit i) || (pieces.getD i defaultPiece).completed
  let sel : Option (Nat × Nat) :=
    if needReselect then
      let downloadable := ((List.range pieces.length).filter
          (fun i => !(pieces.getD i defaultPiece).completed)).filter
          (fun i => bitfield.getBit i)
      if downloadable.length == 0 then none
      else some (downloadable.getD (rand % downloadable.length) 0, 0)
    else some (peer._downloadingPieceIndex.getD 0, peer._downloadingSubPieceOffset.getD 0)
  match sel with
  | none => .closed
  | some (pieceIndex, hint) =>
    match (pieces.getD pieceIndex defaultPiece).getFirstIncompletedSubPiece hint with
    | .error () => .threw
    | .ok (subPieceOffset, subPieceLen) =>
      let newOffset := subPieceOffset + subPieceLen
      if newOffset ≥ (pieces.getD pieceIndex defaultPiece)._pieceLength then
        .request { _downloadingPieceIndex := some ((pieceIndex + 1) % pieces.length)
                   _downloadingSubPieceOffset := some 0 }
          pieceIndex subPieceOffset subPieceLen
      else
        .request { _downloadingPieceIndex := some pieceIndex
                   _downloadingSubPieceOffset := some newOffset }
          pieceIndex subPieceOffset subPieceLen

/-! ## The completed piece cache eviction tick (src/downTorrent.ts) -/

/-- config.numMaxCompletedPieceCacheSize. -/
def numMaxCompletedPieceCacheSize : Nat := 16777216

/-- Indexes of the pieces kept by the filter piece.completed && piece.cached.
The source filters the piece objects themselves; indexes stand for the object
identities. -/
def completedCachedIdxs (pieces : List Piece) : List Nat :=
  (List.range pieces.length).filter
    (fun i => (pieces.getD i defaultPiece).completed && (pieces.getD i defaultPiece).cached)

/-- sum(completedCachedPieces.map(piece => piece.pieceLength)). -/
def cacheSize (pieces : List Piece) : Nat :=
  ((completedCachedIdxs pieces).map (fun i => (pieces.getD i defaultPiece)._pieceLength)).sum

/-- Apply f to every element together with its position. -/
def mapWithIndexFrom (f : Nat → Piece → Piece) (start : Nat) : List Piece → List Piece
  | [] => []
  | p :: rest => f start p :: mapWithIndexFrom f (start + 1) rest

def mapWithIndex (f : Nat → Piece → Piece) (l : List Piece) : List Piece :=
  mapWithIndexFrom f 0 l

/-- The 5 second cache eviction tick.  order is the oracle for
shuffle(completedCachedPieces): the indexes of the completed cached pieces in
the shuffled order; theorems that quantify over states require it to be a
permutation of completedCachedIdxs.  slice(0, k / 2) truncates the fractional
end index, giving Nat division.  clearCache is applied to the pieces whose
index falls in the dropped prefix. -/
def clearCacheTick (pieces : List Piece) (order : List Nat) : List Piece :=
  if cacheSize pieces > numMaxCompletedPieceCacheSize then
    let dropped := order.take ((completedCachedIdxs pieces).length / 2)
    mapWithIndex (fun i p => if dropped.contains i then p.clearCache else p) pieces
  else pieces

/-! ## Wire codec (src/peerMessage.ts) -/

/-- The peer message variants, tagging the interfaces of the source; the
numeric ids live in encode and decode.  The constructor for HAVE is named
haveMsg and the ones for BITFIELD and PIECE likewise, to avoid keywords. -/
inductive PeerMessage
  | handshake (infoHash peerId : List Char)
  | keepAlive
  | choke
  | unchoke
  | interested
  | notInterested
  | haveMsg (pieceNumber : Nat)
  | bitfieldMsg (bits : Buf)
  | request (pieceIndex blockOffset pieceLength : Nat)
  | pieceMsg (pieceIndex blockOffset : Nat) (pieceData : Buf)
  | cancel (pieceIndex blockOffset pieceLength : Nat)
deriving DecidableEq

/-- ASCII bytes of a list of characters; models buffer.write for the ASCII
strings the source writes. -/
def charBytes (s : List Char) : Buf := s.map Char.toNat

def isUpperHexDigit (c : Char) : Bool :=
  (48 ≤ c.toNat && c.toNat ≤ 57) || (65 ≤ c.toNat && c.toNat ≤ 70)

def isHexDigitChar (c : Char) : Bool :=
  isUpperHexDigit c || (97 ≤ c.toNat && c.toNat ≤ 102)

/-- String.prototype.toUpperCase on one character, ASCII range. -/
def jsToUpperChar (c : Char) : Char :=
  if 97 ≤ c.toNat && c.toNat ≤ 122 then Char.ofNat (c.toNat - 32) else c

/-- One to two hex characters parsed as parseInt(s, 16): none is NaN; a valid
first digit followed by an invalid second parses as the one digit prefix. -/
def jsParseIntHex2 (s : List Char) : Option Nat :=
  match s with
  | [] => none
  | [c] => if isHexDigitChar c then some (hexVal c) else none
  | c1 :: c2 :: _ =>
    if isHexDigitChar c1 then
      if isHexDigitChar c2 then some (16 * hexVal c1 + hexVal c2)
      else some (hexVal c1)
    else none
where
  hexVal (c : Char) : Nat :=
    if c.toNat ≤ 57 then c.toNat - 48
    else if c.toNat ≤ 70 then c.toNat - 55
    else c.toNat - 87

/-- The test s.toUpperCase().match(/[0-9A-F]{20}/): some run of 20 consecutive
upper hex characters exists. -/
def hasHexRun20 (s : List Char) : Bool :=
  (List.range (s.length + 1 - 20)).any
    (fun i => ((s.drop i).take 20).all (fun c => isUpperHexDigit c))

/-- getRawInfoHash from the source: after the regex test on the uppercased
string, 20 bytes are parsed from the two character slices of the original
string; a NaN parse makes writeUInt8 throw, modelled as none. -/
def getRawInfoHash (hexDigestedInfoHash : List Char) : Option Buf :=
  if !(hasHexRun20 (hexDigestedInfoHash.map jsToUpperChar)) then none
  else
    (List.range 20).foldl (fun acc i => do
      let buf ← acc
      let v ← jsParseIntHex2 ((hexDigestedInfoHash.drop (2 * i)).take 2)
      writeUInt8 buf v i) (some (bufAlloc 20))

/-- Hex digit 0..15 to its uppercase character. -/
def hexDigitUpper (d : Nat) : Char :=
  if d < 10 then Char.ofNat (48 + d) else Char.ofNat (55 + d)

/-- One byte to two uppercase hex characters: toString(16).padStart(2, "0"),
with the final toUpperCase of the source applied per character. -/
def byteToHexUpper (b : Nat) : List Char :=
  [hexDigitUpper (b / 16 % 16), hexDigitUpper (b % 16)]

/-- getHexDigestedInfoHash from the source; none models the throw on a length
other than 20. -/
def getHexDigestedInfoHash (rawInfoHash : Buf) : Option (List Char) :=
  if rawInfoHash.length != 20 then none
  else some ((List.range 20).foldl
    (fun acc i => acc ++ byteToHexUpper (readUInt8 rawInfoHash i)) [])

/-- The closing writes shared by all regular frames: length prefix at 0 and
message type id at 4. -/
def encodeRegular (typeId : Nat) (buffer : Buf) : Option Buf := do
  let buffer ← writeUInt32BE buffer (buffer.length - 4) 0
  writeUInt8 buffer typeId 4

/-- encodeMessage from the source.  none models a thrown error.  In the PIECE
case the source passes writeUInt32BE(5, pieceIndex) and
writeUInt32BE(9, blockOffset), so the constant is the value written and the
field is used as the byte offset, exactly as transcribed here. -/
def encodeMessage : PeerMessage → Option Buf
  | .handshake infoHash peerId => do
      let buffer := bufAlloc 68
      let buffer ← writeUInt8 buffer 19 0
      let buffer := copyInto (charBytes "BitTorrent protocol".data) buffer 1
      let raw ← getRawInfoHash infoHash
      let buffer := copyInto raw buffer 28
      some (copyInto (charBytes peerId) buffer 48)
  | .keepAlive => some (bufAlloc 4)
  | .choke => encodeRegular 0 (bufAlloc 5)
  | .unchoke => encodeRegular 1 (bufAlloc 5)
  | .interested => encodeRegular 2 (bufAlloc 5)
  | .notInterested => encodeRegular 3 (bufAlloc 5)
  | .request pieceIndex blockOffset pieceLength => do
      let buffer := bufAlloc 17
      let buffer ← writeUInt32BE buffer pieceIndex 5
      let buffer ← writeUInt32BE buffer blockOffset 9
      let buffer ← writeUInt32BE buffer pieceLength 13
      encodeRegular 6 buffer
  | .cancel pieceIndex blockOffset pieceLength => do
      let buffer := bufAlloc 17
      let buffer ← writeUInt32BE buffer pieceIndex 5
      let buffer ← writeUInt32BE buffer blockOffset 9
      let buffer ← writeUInt32BE buffer pieceLength 13
      encodeRegular 8 buffer
  | .haveMsg pieceNumber => do
      let buffer := bufAlloc 9
      let buffer ← writeUInt32BE buffer pieceNumber 5
      encodeRegular 4 buffer
  | .bitfieldMsg bits =>
      encodeRegular 5 (copyInto bits (bufAlloc (5 + bits.length)) 5)
  | .pieceMsg pieceIndex blockOffset pieceData => do
      let buffer := bufAlloc (13 + pieceData.length)
      let buffer ← writeUInt32BE buffer 5 pieceIndex
      let buffer ← writeUInt32BE buffer 9 blockOffset
      encodeRegular 7 (copyInto pieceData buffer 13)

/-- Result of decodeMessage: more models returning null or undefined (need
more bytes), err models a thrown error. -/
inductive DecodeResult
  | more
  | err
  | ok (messageLength : Nat) (message : PeerMessage)
deriving DecidableEq

/-- utf-8 decoding of the peer id bytes, restricted to the ASCII range the
protocol uses. -/
def bytesToChars (b : Buf) : List Char := b.map Char.ofNat

def validTypeIds : List Nat := [0, 1, 2, 3, 4, 5, 6, 7, 8]

/-- decodeMessage from the source. -/
def decodeMessage (buffer : Buf) : DecodeResult :=
  if buffer.length ≥ 4 then
    let messageLength := readUInt32BE buffer 0 + 4
    if messageLength == 323119476 + 4 then
      if buffer.length < 68 then .more
      else match getHexDigestedInfoHash ((buffer.take 48).drop 28) with
        | none => .err
        | some infoHash =>
            .ok 68 (.handshake infoHash (bytesToChars ((buffer.take 68).drop 48)))
    else if messageLength == 4 then .ok 4 .keepAlive
    else if buffer.length ≥ 5 && !(validTypeIds.contains (readUInt8 buffer 4)) then .err
    else if buffer.length < messageLength then .more
    else
      match readUInt8 buffer 4 with
      | 0 => .ok messageLength .choke
      | 1 => .ok messageLength .unchoke
      | 2 => .ok messageLength .interested
      | 3 => .ok messageLength .notInterested
      | 4 => .ok messageLength (.haveMsg (readUInt32BE buffer 5))
      | 5 => .ok messageLength (.bitfieldMsg (buffer.drop 5))
      | 6 => .ok messageLength
          (.request (readUInt32BE buffer 5) (readUInt32BE buffer 9) (readUInt32BE buffer 13))
      | 7 => .ok messageLength
          (.pieceMsg (readUInt32BE buffer 5) (readUInt32BE buffer 9)
            ((buffer.take messageLength).drop 13))
      | 8 => .ok messageLength
          (.cancel (readUInt32BE buffer 5) (readUInt32BE buffer 9) (readUInt32BE buffer 13))
      | _ => .err
  else .more

/-! ## Tracker query url (src/tracker.ts) -/

/-- config.peerId, the default peer id. -/
def configPeerId : List Char := "-BT0001-000000000000".data

/-- The global regex replace of /[0-9A-F]{2}/g with a percent prefix: leftmost
non overlapping matches; on a failed two character match the scan advances by
one character. -/
def hexPairReplace : List Char → List Char
  | [] => []
  | [c] => [c]
  | c1 :: c2 :: rest =>
    if isUpperHexDigit c1 && isUpperHexDigit c2 then '%' :: c1 :: c2 :: hexPairReplace rest
    else c1 :: hexPairReplace (c2 :: rest)

/-- getQueryUrl from the source, over the tracker url, the hex digested info
hash of the torrent and state.torrent.length; the number is rendered in
decimal by the JS string coercion. -/
def getQueryUrl (trackerUrl infoHash : List Char) (totalLength : Nat) : List Char :=
  let infoHashEncoded := hexPairReplace (infoHash.map jsToUpperChar)
  trackerUrl ++ "?info_hash=".data ++ infoHashEncoded
    ++ "&peer_id=".data ++ configPeerId
    ++ "&port=6881".data ++ "&downloaded=0".data ++ "&uploaded=0".data
    ++ "&left=".data ++ (Nat.repr totalLength).data ++ "&event=started".data

/-- Modelled from the claim text for the round trip comparison: every two hex
characters prefixed by a percent character. -/
def specPercentPairs : List Char → List Char
  | c1 :: c2 :: rest => '%' :: c1 :: c2 :: specPercentPairs rest
  | l => l

/-- A concrete completed and cached piece of the maximal usual piece length,
16 MiB, as left behind by a completed download: count equals the sub piece
total, the cache buffer is allocated.  Used as the eviction counterexample. -/
def bigPiece (idx : Nat) : Piece :=
  { _pieceIndex := idx
    _pieceLength := 16777216
    _pieceCache := some (bufAlloc 16777216)
    _subPieceCompleted := { _length := 1024, _buf := List.replicate 128 0 }
    _subPieceExpando := List.range 1024
    _subPieceCompletedCount := 1024 }

/-!
# Theorems

Helper lemmas first, then one theorem for each claim, each with its witness
when the statement carries hypotheses.
-/

theorem length_copyInto (src dst : Buf) (off : Nat) :
    (copyInto src dst off).length = dst.length := by
  simp [copyInto]

theorem getD_copyInto (src dst : Buf) (off i : Nat) (h : i < dst.length) :
    (copyInto src dst off).getD i 0 =
      if off ≤ i ∧ i < off + src.length then src.getD (i - off) 0 else dst.getD i 0 := by
  simp only [copyInto, List.getD_eq_getElem?_getD, List.getElem?_map, List.getElem?_range h,
    Option.map_some', Option.getD_some]

theorem getD_lt_256 (l : List Nat) (hl : ∀ b ∈ l, b < 256) (j : Nat) : l.getD j 0 < 256 := by
  rcases Nat.lt_or_ge j l.length with hj | hj
  · rw [List.getD_eq_getElem?_getD, List.getElem?_eq_getElem hj]
    exact hl _ (List.getElem_mem hj)
  · rw [List.getD_eq_getElem?_getD, List.getElem?_eq_none hj]
    norm_num

set_option maxRecDepth 2000 in
theorem getBit_byte_core : ∀ b < 256, ∀ m < 8,
    (((b <<< m) &&& 128 == 128) = b.testBit (7 - m)) := by decide

set_option maxRecDepth 4000 in
theorem putBit_byte_true_core : ∀ b < 256, ∀ m < 8,
    (b ||| (128 >>> m)).testBit (7 - m) = true ∧
    (∀ k < 8, k ≠ 7 - m → (b ||| (128 >>> m)).testBit k = b.testBit k) := by decide

set_option maxRecDepth 4000 in
theorem putBit_byte_false_core : ∀ b < 256, ∀ m < 8,
    (b &&& (255 ^^^ (128 >>> m))).testBit (7 - m) = false ∧
    (∀ k < 8, k ≠ 7 - m → (b &&& (255 ^^^ (128 >>> m))).testBit k = b.testBit k) := by decide

/-- After a save below the length bound, the piece records the sub piece index
in the expando set, keeps its length and holds a cache buffer. -/
theorem saveSubPiece_props (p : Piece) (b : Buf) (off : Nat) (h w : Bool)
    (hb : ¬ (off + b.length > p._pieceLength)) :
    ∃ q wrote c, Piece.saveSubPiece p b off h w = .ok (q, wrote) ∧
      q._pieceLength = p._pieceLength ∧ q._pieceCache = some c ∧
      q._subPieceExpando.contains (off / subPieceLength) = true := by
  unfold Piece.saveSubPiece
  rw [if_neg hb]
  cases hc : p._pieceCache with
  | none =>
    by_cases hct : p._subPieceExpando.contains (off / subPieceLength) = true
    · simp only [hct, if_true]
      exact ⟨_, _, _, rfl, rfl, rfl, hct⟩
    · rw [Bool.not_eq_true] at hct
      simp only [hct, Bool.false_eq_true, if_false]
      split
      · split
        · exact ⟨_, _, _, rfl, rfl, rfl, by simp⟩
        · exact ⟨_, _, _, rfl, rfl, rfl, by simp⟩
      · exact ⟨_, _, _, rfl, rfl, rfl, by simp⟩
  | some c =>
    by_cases hct : p._subPieceExpando.contains (off / subPieceLength) = true
    · simp only [hct, if_true]
      exact ⟨_, _, _, rfl, rfl, rfl, hct⟩
    · rw [Bool.not_eq_true] at hct
      simp only [hct, Bool.false_eq_true, if_false]
      split
      · split
        · exact ⟨_, _, _, rfl, rfl, rfl, by simp⟩
        · exact ⟨_, _, _, rfl, rfl, rfl, by simp⟩
      · exact ⟨_, _, _, rfl, rfl, rfl, by simp⟩

/-- A save whose sub piece index is already in the expando set changes nothing:
the cache stays, the mask, count and expando set are untouched, nothing is
written. -/
theorem saveSubPiece_skip (q : Piece) (b : Buf) (off : Nat) (h w : Bool) (c : Buf)
    (hb : ¬ (off + b.length > q._pieceLength))
    (hc : q._pieceCache = some c)
    (hct : q._subPieceExpando.contains (off / subPieceLength) = true) :
    Piece.saveSubPiece q b off h w = .ok (q, false) := by
  unfold Piece.saveSubPiece
  rw [if_neg hb]
  simp only [hc, hct, if_true]
  have : ({ q with _pieceCache := some c } : Piece) = q := by
    cases q
    simp_all
  rw [this]

/-- Claim C6: for every length n, including n not a multiple of 8, a BitSet
constructed with length n is backed by exactly ceil(n / 8) bytes (the
conjunct on plain Nat arithmetic shows (n + 7) / 8 is that ceiling), and
the bit order is MSB first for both getBit and putBit: bit i is read from,
and written to, the 0x80 >> (i % 8) position of byte i / 8, leaving every
other bit of the byte and every other byte unchanged. -/
theorem claim6_bitSet_ceil_bytes_msb_first :
    (∀ n init, (BitSet.new n init)._buf.length = (n + 7) / 8) ∧
    (∀ n, n ≤ 8 * ((n + 7) / 8) ∧ 8 * ((n + 7) / 8) < n + 8) ∧
    (∀ bs : BitSet, ∀ i : Nat, (∀ b ∈ bs._buf, b < 256) →
      bs.getBit i = (readUInt8 bs._buf (i / 8)).testBit (7 - i % 8)) ∧
    (∀ bs : BitSet, ∀ i : Nat, ∀ v : Bool, (∀ b ∈ bs._buf, b < 256) → i / 8 < bs._buf.length →
      ((readUInt8 (bs.putBit i v)._buf (i / 8)).testBit (7 - i % 8) = v ∧
       (∀ k, k < 8 → k ≠ 7 - i % 8 →
         (readUInt8 (bs.putBit i v)._buf (i / 8)).testBit k =
           (readUInt8 bs._buf (i / 8)).testBit k) ∧
       (∀ j, j ≠ i / 8 → readUInt8 (bs.putBit i v)._buf j = readUInt8 bs._buf j))) := by
  refine ⟨?_, ?_, ?_, ?_⟩
  · intro n init
    cases init with
    | none => simp [BitSet.new, bufAlloc]
    | some b => simp [BitSet.new, length_copyInto, bufAlloc]
  · intro n
    omega
  · intro bs i hl
    have hb := getD_lt_256 bs._buf hl (i / 8)
    have hm : i % 8 < 8 := Nat.mod_lt _ (by norm_num)
    exact getBit_byte_core _ hb _ hm
  · intro bs i v hl hdiv
    have hb := getD_lt_256 bs._buf hl (i / 8)
    have hm : i % 8 < 8 := Nat.mod_lt _ (by norm_num)
    have hset : ∀ x : Nat, readUInt8 (bs._buf.set (i / 8) x) (i / 8) = x := by
      intro x
      unfold readUInt8
      rw [List.getD_eq_getElem?_getD, List.getElem?_set_self]
      · simp
      · exact hdiv
    have hsetne : ∀ (x : Nat) (j : Nat), j ≠ i / 8 →
        readUInt8 (bs._buf.set (i / 8) x) j = readUInt8 bs._buf j := by
      intro x j hj
      unfold readUInt8
      rw [List.getD_eq_getElem?_getD, List.getD_eq_getElem?_getD, List.getElem?_set_ne]
      omega
    cases v with
    | true =>
      refine ⟨?_, ?_, ?_⟩
      · rw [show (bs.putBit i true)._buf = bs._buf.set (i / 8)
          ((readUInt8 bs._buf (i / 8)) ||| (0x80 >>> (i % 8))) from rfl, hset]
        exact (putBit_byte_true_core _ hb _ hm).1
      · intro k hk hkne
        rw [show (bs.putBit i true)._buf = bs._buf.set (i / 8)
          ((readUInt8 bs._buf (i / 8)) ||| (0x80 >>> (i % 8))) from rfl, hset]
        exact (putBit_byte_true_core _ hb _ hm).2 k hk hkne
      · intro j hj
        rw [show (bs.putBit i true)._buf = bs._buf.set (i / 8)
          ((readUInt8 bs._buf (i / 8)) ||| (0x80 >>> (i % 8))) from rfl]
        exact hsetne _ j hj
    | false =>
      refine ⟨?_, ?_, ?_⟩
      · rw [show (bs.putBit i false)._buf = bs._buf.set (i / 8)
          ((readUInt8 bs._buf (i / 8)) &&& (0xff ^^^ (0x80 >>> (i % 8)))) from rfl, hset]
        exact (putBit_byte_false_core _ hb _ hm).1
      · intro k hk hkne
        rw [show (bs.putBit i false)._buf = bs._buf.set (i / 8)
          ((readUInt8 bs._buf (i / 8)) &&& (0xff ^^^ (0x80 >>> (i % 8)))) from rfl, hset]
        exact (putBit_byte_false_core _ hb _ hm).2 k hk hkne
      · intro j hj
        rw [show (bs.putBit i false)._buf = bs._buf.set (i / 8)
          ((readUInt8 bs._buf (i / 8)) &&& (0xff ^^^ (0x80 >>> (i % 8)))) from rfl]
        exact hsetne _ j hj

/-- Witness for claim C6 at a concrete misaligned length and bit position. -/
theorem claim6_bitSet_ceil_bytes_msb_first_witness :
    (BitSet.new 11 (some [129]))._buf.length = 2 ∧
    ((BitSet.new 11 (some [129])).getBit 0 =
      (readUInt8 (BitSet.new 11 (some [129]))._buf 0).testBit 7) ∧
    ((readUInt8 ((BitSet.new 11 (some [129])).putBit 9 true)._buf (9 / 8)).testBit (7 - 9 % 8)
      = true) := by
  refine ⟨claim6_bitSet_ceil_bytes_msb_first.1 11 (some [129]), ?_, ?_⟩
  · have h := claim6_bitSet_ceil_bytes_msb_first.2.2.1 (BitSet.new 11 (some [129])) 0 (by decide)
    simpa using h
  · exact (claim6_bitSet_ceil_bytes_msb_first.2.2.2 (BitSet.new 11 (some [129])) 9 true
      (by decide) (by decide)).1

/-- Claim C5: save idempotence.  For every piece state, buffer and in bounds
offset, the first saveSubPiece returns some state q, and repeating the same
call on q returns q itself unchanged with no disk write, so the completed
count is not incremented by the second call.  This holds because the first
call always leaves the sub piece index in the expando set and the cache
allocated, making the second call return before touching anything. -/
theorem claim5_saveSubPiece_idempotent (p : Piece) (b : Buf) (off : Nat)
    (h1 w1 h2 w2 : Bool) (hb : off + b.length ≤ p._pieceLength) :
    ∃ q w, Piece.saveSubPiece p b off h1 w1 = .ok (q, w) ∧
      Piece.saveSubPiece q b off h2 w2 = .ok (q, false) := by
  have hb2 : ¬ (off + b.length > p._pieceLength) := by omega
  obtain ⟨q, wrote, c, heq, hlen, hcache, hct⟩ := saveSubPiece_props p b off h1 w1 hb2
  exact ⟨q, wrote, heq, saveSubPiece_skip q b off h2 w2 c (by omega) hcache hct⟩

/-- Witness for claim C5 on a fresh two sub piece piece. -/
theorem claim5_saveSubPiece_idempotent_witness :
    ∃ q w, Piece.saveSubPiece (Piece.init 0 32768 false) [5] 0 true true = .ok (q, w) ∧
      Piece.saveSubPiece q [5] 0 true true = .ok (q, false) :=
  claim5_saveSubPiece_idempotent (Piece.init 0 32768 false) [5] 0 true true true true
    (by decide)

/-- Claim C10: saveSubPiece never checks 16384 alignment of the offset: any
offset with offset + data length inside the piece is accepted, the data is
copied into the cache at the raw offset, and sub piece floor(offset / 16384)
is marked complete (its expando property is set), although the full 16384
byte range of that sub piece was not received.  The cache length hypothesis
holds for every cache the class itself allocates. -/
theorem claim10_saveSubPiece_accepts_unaligned (p : Piece) (b : Buf) (off : Nat)
    (h w : Bool)
    (hal : off % subPieceLength ≠ 0)
    (hb : off + b.length ≤ p._pieceLength)
    (hfresh : p._subPieceExpando.contains (off / subPieceLength) = false)
    (hclen : ∀ c, p._pieceCache = some c → c.length = p._pieceLength) :
    ∃ q wrote, Piece.saveSubPiece p b off h w = .ok (q, wrote) ∧
      q._subPieceExpando.contains (off / subPieceLength) = true ∧
      ∀ j < b.length, (q._pieceCache.getD []).getD (off + j) 0 = b.getD j 0 := by
  have hb2 : ¬ (off + b.length > p._pieceLength) := by omega
  have hcontent : ∀ cache : Buf, cache.length = p._pieceLength →
      ∀ j, j < b.length → (copyInto b cache off).getD (off + j) 0 = b.getD j 0 := by
    intro cache hcl j hj
    rw [getD_copyInto _ _ _ _ (by omega), if_pos ⟨by omega, by omega⟩]
    congr 1
    omega
  unfold Piece.saveSubPiece
  rw [if_neg hb2]
  cases hc : p._pieceCache with
  | none =>
    simp only [hfresh, Bool.false_eq_true, if_false]
    split
    · split
      · refine ⟨_, _, rfl, by simp, ?_⟩
        intro j hj
        simpa using hcontent _ (by simp [bufAlloc]) j hj
      · refine ⟨_, _, rfl, by simp, ?_⟩
        intro j hj
        simpa using hcontent _ (by simp [bufAlloc]) j hj
    · refine ⟨_, _, rfl, by simp, ?_⟩
      intro j hj
      simpa using hcontent _ (by simp [bufAlloc]) j hj
  | some c =>
    have hcl := hclen c hc
    simp only [hfresh, Bool.false_eq_true, if_false]
    split
    · split
      · refine ⟨_, _, rfl, by simp, ?_⟩
        intro j hj
        simpa using hcontent _ hcl j hj
      · refine ⟨_, _, rfl, by simp, ?_⟩
        intro j hj
        simpa using hcontent _ hcl j hj
    · refine ⟨_, _, rfl, by simp, ?_⟩
      intro j hj
      simpa using hcontent _ hcl j hj

/-- Witness for claim C10: a two byte block saved at the unaligned offset 1. -/
theorem claim10_saveSubPiece_accepts_unaligned_witness :
    ∃ q wrote, Piece.saveSubPiece (Piece.init 0 32768 false) [9, 9] 1 false false
        = .ok (q, wrote) ∧
      q._subPieceExpando.contains (1 / subPieceLength) = true ∧
      ∀ j < ([9, 9] : Buf).length, (q._pieceCache.getD []).getD (1 + j) 0
        = ([9, 9] : Buf).getD j 0 :=
  claim10_saveSubPiece_accepts_unaligned (Piece.init 0 32768 false) [9, 9] 1 false false
    (by decide) (by decide) (by decide) (by intro c hc; cases hc)

set_option maxRecDepth 10000 in
/-- Claim C1 fails on the PIECE variant: the source passes the arguments of
writeUInt32BE swapped in the PIECE case of encodeMessage, writing the
constant 5 at byte offset pieceIndex and the constant 9 at byte offset
blockOffset.  For the message PIECE with pieceIndex 1, blockOffset 0 and
empty data, the encoder succeeds but the decoder reads pieceIndex 0 and
blockOffset 0 back, so decode(encode(m)) is not (len, m). -/
theorem claim1_piece_roundtrip_fails :
    ((encodeMessage (.pieceMsg 1 0 [])).map decodeMessage
      = some (.ok 13 (.pieceMsg 0 0 []))) ∧
    (PeerMessage.pieceMsg 0 0 [] ≠ .pieceMsg 1 0 []) := by
  exact ⟨by decide, by decide⟩

set_option maxRecDepth 4000 in
/-- Claim C2 fails: saveSubPiece marks completion through a plain JS property
on the BitSet object (bracket indexing), never calling putBit, so after one
save on a fresh piece of two sub pieces the stored count is 1 while the
number of set bits among the first subPieceTotalCount bits of the mask is
still 0. -/
theorem claim2_count_differs_from_popcount :
    (Piece.saveSubPiece (Piece.init 0 32768 false) [7] 0 false false).toOption.map
      (fun r => (r.1._subPieceCompletedCount, popcountFirst r.1._subPieceCompleted))
      = some (1, 0) ∧ (1 : Nat) ≠ 0 := by
  exact ⟨by decide, by decide⟩

/-- Claim C3 fails: on the sorted, contiguous, covering layout of two one byte
files at offsets 0 and 1, the binary search for target 0 returns index 1,
whose file starts after the target, instead of index 0 whose range contains
the target.  The slip is the update r = m - 1 in place of r = m. -/
theorem claim3_findFile_returns_wrong_index :
    findFileContainingOffset [{ offset := 0, length := 1 }, { offset := 1, length := 1 }] 0
      = some 1 ∧
    ¬ (({ offset := 1, length := 1 } : TFile).offset ≤ 0) ∧
    ({ offset := 0, length := 1 } : TFile).offset ≤ 0 ∧
    0 < ({ offset := 0, length := 1 } : TFile).offset + ({ offset := 0, length := 1 } : TFile).length := by
  refine ⟨?_, by decide, by decide, by decide⟩
  rw [findFileContainingOffset, findFileLoop]
  norm_num
  rw [findFileLoop]
  norm_num

set_option maxRecDepth 4000 in
/-- Claim C4: after the saveSubPiece call that completes the only sub piece of
a fresh piece with a failing hash, the mask is entirely cleared (popcount 0),
the count is 0 and the buffer remains allocated, exactly as the claim states;
but the piece can not be downloaded again: the expando completion marks
survive the reset, so the retry of the same sub piece with a correct hash is
discarded, the count stays 0 and nothing is written to disk. -/
theorem claim4_reset_blocks_redownload :
    ((Piece.saveSubPiece (Piece.init 0 16384 false) [7] 0 false true).toOption.bind
      (fun r => (Piece.saveSubPiece r.1 [7] 0 true true).toOption.map
        (fun r2 => (r.1._subPieceCompletedCount, popcountFirst r.1._subPieceCompleted,
                    r.1.cached, r2.1._subPieceCompletedCount, r2.1.cached, r2.2))))
      = some (0, 0, true, 0, true, false) := by
  decide

set_option maxRecDepth 4000 in
/-- Claim C8 fails: the branch throwing unreachable in
getFirstIncompletedSubPiece is reachable through downloadNextSubPiece.  A
piece verified from disk at startup has every mask bit set and count equal to
the total; one PIECE message for it (the session saves any received block)
pushes the count above the total, so the piece counts as incomplete and is
selectable, yet every completion bit is set and the scan finds nothing. -/
theorem claim8_pipeline_reaches_unreachable_throw :
    (Piece.saveSubPiece (Piece.init 0 32768 true) [7] 0 true true).toOption.map
      (fun r => downloadNextSubPiece [r.1] (BitSet.new 1 (some [128]))
        { _downloadingPieceIndex := none, _downloadingSubPieceOffset := none } 0)
      = some .threw := by
  decide

/-- Claim C7 fails: three completed cached pieces of 16 MiB each total 48 MiB;
the tick drops only floor(3 / 2) = 1 of them, and immediately after the tick
the completed cached total is 32 MiB, above the 16777216 byte budget.  The
first conjunct shows the chosen shuffle order is a possible shuffle output. -/
theorem claim7_tick_leaves_cache_over_budget :
    ([0, 1, 2] : List Nat).Perm (completedCachedIdxs [bigPiece 0, bigPiece 1, bigPiece 2]) ∧
    cacheSize (clearCacheTick [bigPiece 0, bigPiece 1, bigPiece 2] [0, 1, 2]) = 33554432 ∧
    ¬ (cacheSize (clearCacheTick [bigPiece 0, bigPiece 1, bigPiece 2] [0, 1, 2])
        ≤ numMaxCompletedPieceCacheSize) := by
  exact ⟨by decide, by decide, by decide⟩


theorem isUpperHexDigit_jsToUpperChar (c : Char) (h : isHexDigitChar c = true) :
    isUpperHexDigit (jsToUpperChar c) = true := by
  unfold isHexDigitChar at h
  unfold jsToUpperChar
  simp only [Bool.or_eq_true, Bool.and_eq_true, decide_eq_true_eq] at h
  rcases h with h | h
  · have hna : ¬ ((97 ≤ c.toNat && c.toNat ≤ 122) = true) := by
      simp only [Bool.and_eq_true, decide_eq_true_eq]
      unfold isUpperHexDigit at h
      simp only [Bool.or_eq_true, Bool.and_eq_true, decide_eq_true_eq] at h
      omega
    rw [if_neg hna]
    exact h
  · obtain ⟨h1, h2⟩ := h
    have hca : (97 ≤ c.toNat && c.toNat ≤ 122) = true := by
      simp only [Bool.and_eq_true, decide_eq_true_eq]
      omega
    rw [if_pos hca]
    have hc6 : c.toNat = 97 ∨ c.toNat = 98 ∨ c.toNat = 99 ∨ c.toNat = 100 ∨
        c.toNat = 101 ∨ c.toNat = 102 := by omega
    rcases hc6 with h | h | h | h | h | h <;> rw [h] <;> decide

theorem hexPairReplace_eq_specPercentPairs :
    ∀ l : List Char, (∀ c ∈ l, isUpperHexDigit c = true) → l.length % 2 = 0 →
      hexPairReplace l = specPercentPairs l
  | [], _, _ => rfl
  | [c], _, hl => by simp at hl
  | c1 :: c2 :: rest, hall, hl => by
    have h1 := hall c1 (by simp)
    have h2 := hall c2 (by simp)
    have hrest : rest.length % 2 = 0 := by
      simp only [List.length_cons] at hl
      omega
    have ih := hexPairReplace_eq_specPercentPairs rest
      (fun c hc => hall c (by simp [hc]))
      hrest
    simp [hexPairReplace, specPercentPairs, h1, h2, ih]

/-- Claim C9: for every announce url, every 40 character hex info hash (either
case) and every total length, getQueryUrl returns exactly the announce url,
then the literal query prefix, then the uppercase hex digest with every two
hex characters prefixed by a percent character, then the literal peer id,
port, downloaded, uploaded and left fields with the total length in decimal,
then the literal event field, with no other encoding. -/
theorem claim9_getQueryUrl_exact (trackerUrl infoHash : List Char) (totalLength : Nat)
    (hlen : infoHash.length = 40)
    (hhex : ∀ c ∈ infoHash, isHexDigitChar c = true) :
    getQueryUrl trackerUrl infoHash totalLength =
      trackerUrl ++ "?info_hash=".data ++ specPercentPairs (infoHash.map jsToUpperChar)
        ++ "&peer_id=-BT0001-000000000000&port=6881&downloaded=0&uploaded=0&left=".data
        ++ (Nat.repr totalLength).data ++ "&event=started".data := by
  unfold getQueryUrl
  rw [hexPairReplace_eq_specPercentPairs (infoHash.map jsToUpperChar)
    (fun c hc => by
      obtain ⟨a, ha, rfl⟩ := List.mem_map.mp hc
      exact isUpperHexDigit_jsToUpperChar a (hhex a ha))
    (by simp [hlen])]
  simp only [List.append_assoc]
  refine congrArg (fun t => trackerUrl ++ t) ?_
  refine congrArg (fun t => "?info_hash=".data ++ t) ?_
  refine congrArg (fun t => specPercentPairs (infoHash.map jsToUpperChar) ++ t) ?_
  simp only [← List.append_assoc]
  congr 1

/-- Witness for claim C9 on a concrete announce url, mixed case info hash and
total length. -/
theorem claim9_getQueryUrl_exact_witness :
    getQueryUrl "http://tracker.example/announce".data
        "0123456789abcdef0123456789ABCDEF01234567".data 65536 =
      "http://tracker.example/announce".data ++ "?info_hash=".data
        ++ specPercentPairs ("0123456789abcdef0123456789ABCDEF01234567".data.map jsToUpperChar)
        ++ "&peer_id=-BT0001-000000000000&port=6881&downloaded=0&uploaded=0&left=".data
        ++ (Nat.repr 65536).data ++ "&event=started".data :=
  claim9_getQueryUrl_exact "http://tracker.example/announce".data
    "0123456789abcdef0123456789ABCDEF01234567".data 65536 (by decide) (by decide)


theorem length_mapWithIndexFrom (f : Nat → Piece → Piece) (s : Nat) (l : List Piece) :
    (mapWithIndexFrom f s l).length = l.length := by
  induction l generalizing s with
  | nil => rfl
  | cons p rest ih => simp [mapWithIndexFrom, ih]

theorem getD_mapWithIndexFrom (f : Nat → Piece → Piece) (s : Nat) (l : List Piece)
    (i : Nat) (hi : i < l.length) :
    (mapWithIndexFrom f s l).getD i defaultPiece = f (s + i) (l.getD i defaultPiece) := by
  induction l generalizing s i with
  | nil => simp at hi
  | cons p rest ih =>
    cases i with
    | zero => simp [mapWithIndexFrom]
    | succ n =>
      simp only [mapWithIndexFrom, List.getD_cons_succ]
      rw [ih (s + 1) n (by simpa using hi)]
      congr 1
      omega

theorem length_filter_split (l : List Nat) (pr : Nat → Bool) :
    (l.filter pr).length + (l.filter (fun a => !(pr a))).length = l.length := by
  induction l with
  | nil => rfl
  | cons a rest ih =>
    cases h : pr a <;> simp [List.filter_cons, h] <;> omega

/-- Claim C7 amended: immediately after every run of the 5 second cache
eviction tick, either the pre tick sum of piece lengths over completed cached
pieces was already at most 16777216 bytes and the pieces are unchanged, or
the tick has just dropped the buffers of floor(k / 2) of the k completed
cached pieces, leaving exactly k - floor(k / 2) of them cached; the remaining
total may still exceed 16777216 bytes.  order is the shuffled index list, any
permutation of the completed cached indexes. -/
theorem claim7_amended_tick_halves (pieces : List Piece) (order : List Nat)
    (hperm : order.Perm (completedCachedIdxs pieces)) :
    (cacheSize pieces ≤ numMaxCompletedPieceCacheSize ∧ clearCacheTick pieces order = pieces) ∨
    (cacheSize pieces > numMaxCompletedPieceCacheSize ∧
      (completedCachedIdxs (clearCacheTick pieces order)).length =
        (completedCachedIdxs pieces).length - (completedCachedIdxs pieces).length / 2) := by
  by_cases hgt : cacheSize pieces > numMaxCompletedPieceCacheSize
  case neg =>
    left
    refine ⟨by omega, ?_⟩
    unfold clearCacheTick
    rw [if_neg hgt]
  case pos =>
  right
  refine ⟨hgt, ?_⟩
  set ccs := completedCachedIdxs pieces with hccs
  set dropped := order.take (ccs.length / 2) with hdropped
  have hccsnodup : ccs.Nodup := by
    rw [hccs]
    unfold completedCachedIdxs
    exact (List.nodup_range _).filter _
  have hordnodup : order.Nodup := (hperm.nodup_iff).mpr hccsnodup
  have hdropnodup : dropped.Nodup := (List.take_sublist _ _).nodup hordnodup
  have hdropsub : ∀ x ∈ dropped, x ∈ ccs := fun x hx => hperm.subset (List.take_subset _ _ hx)
  have hdroplen : dropped.length = ccs.length / 2 := by
    rw [hdropped, List.length_take, hperm.length_eq]
    have := Nat.div_le_self ccs.length 2
    omega
  have htick : clearCacheTick pieces order =
      mapWithIndex (fun i p => if dropped.contains i then p.clearCache else p) pieces := by
    unfold clearCacheTick
    rw [if_pos hgt]
  have hlen2 : (clearCacheTick pieces order).length = pieces.length := by
    rw [htick]
    unfold mapWithIndex
    exact length_mapWithIndexFrom _ _ _
  have hget : ∀ i, i < pieces.length → (clearCacheTick pieces order).getD i defaultPiece =
      (if dropped.contains i then (pieces.getD i defaultPiece).clearCache
       else pieces.getD i defaultPiece) := by
    intro i hi
    rw [htick]
    unfold mapWithIndex
    rw [getD_mapWithIndexFrom _ _ _ _ hi]
    simp
  have hcc2 : completedCachedIdxs (clearCacheTick pieces order)
      = ccs.filter (fun i => !(dropped.contains i)) := by
    rw [hccs]
    unfold completedCachedIdxs
    rw [hlen2, List.filter_filter]
    refine List.filter_congr ?_
    intro i hi
    have hi2 : i < pieces.length := List.mem_range.mp hi
    rw [hget i hi2]
    cases hd : dropped.contains i
    · simp [hd]
    · simp [hd, Piece.clearCache, Piece.cached]
  rw [hcc2]
  have hsplit := length_filter_split ccs (fun i => dropped.contains i)
  have hpermdrop : (ccs.filter (fun i => dropped.contains i)).Perm dropped := by
    refine (List.perm_ext_iff_of_nodup (hccsnodup.filter _) hdropnodup).mpr ?_
    intro a
    simp only [List.mem_filter]
    constructor
    · rintro ⟨_, h2⟩
      exact List.elem_iff.mp h2
    · intro ha
      exact ⟨hdropsub a ha, List.elem_iff.mpr ha⟩
  have hdlen : (ccs.filter (fun i => dropped.contains i)).length = ccs.length / 2 := by
    rw [hpermdrop.length_eq, hdroplen]
  have hnot : (ccs.filter (fun i => !(dropped.contains i))).length
      = ccs.length - ccs.length / 2 := by
    omega
  exact hnot

/-- Witness for the amended claim C7 at the three piece counterexample state. -/
theorem claim7_amended_tick_halves_witness :
    (cacheSize [bigPiece 0, bigPiece 1, bigPiece 2] ≤ numMaxCompletedPieceCacheSize ∧
      clearCacheTick [bigPiece 0, bigPiece 1, bigPiece 2] [0, 1, 2]
        = [bigPiece 0, bigPiece 1, bigPiece 2]) ∨
    (cacheSize [bigPiece 0, bigPiece 1, bigPiece 2] > numMaxCompletedPieceCacheSize ∧
      (completedCachedIdxs (clearCacheTick [bigPiece 0, bigPiece 1, bigPiece 2] [0, 1, 2])).length
        = (completedCachedIdxs [bigPiece 0, bigPiece 1, bigPiece 2]).length
          - (completedCachedIdxs [bigPiece 0, bigPiece 1, bigPiece 2]).length / 2) :=
  claim7_amended_tick_halves [bigPiece 0, bigPiece 1, bigPiece 2] [0, 1, 2] (by decide)
